import Mathlib

/-!
Shallow embedding of the ARM64 stage-1 page-table walking scripts.

Two scripts are modelled:

* `scripts/03_walk_pagetable.py` — the single-target walk (`WalkPageTable.do_walk`):
  address decomposition, TTBR selection by bit 55, per-level descriptor decoding
  with level-specific block masks, early return on unreadable or invalid entries.

* `scripts/gdb_pagetable_walk.py` — the recursive enumeration
  (`Arm64PageTableWalk.walk_table`, `decode_pte`, `invoke`): iterates all 512
  indices of a table, skips unreadable and invalid entries, optionally filters
  on a single target address, truncates output after `max_entries` emitted
  entries, and recurses into table descriptors while `level < 3`.

Physical memory is modelled as a function `Nat → Option Nat`: `none` is a
failed 8-byte read, `some v` a successful one returning the raw descriptor.
Machine integers are `Nat` with explicit masking, exactly as in the Python
source (Python integers are unbounded; every value the scripts manipulate is
produced by masking).
-/

namespace PageWalk

/-- Index extraction from `do_walk` (line 81): `l0_idx = (va >> 39) & 0x1FF`. -/
def l0_idx (va : Nat) : Nat := (va >>> 39) &&& 0x1FF

/-- Index extraction from `do_walk` (line 82): `l1_idx = (va >> 30) & 0x1FF`. -/
def l1_idx (va : Nat) : Nat := (va >>> 30) &&& 0x1FF

/-- Index extraction from `do_walk` (line 83): `l2_idx = (va >> 21) & 0x1FF`. -/
def l2_idx (va : Nat) : Nat := (va >>> 21) &&& 0x1FF

/-- Index extraction from `do_walk` (line 84): `l3_idx = (va >> 12) & 0x1FF`. -/
def l3_idx (va : Nat) : Nat := (va >>> 12) &&& 0x1FF

/-- Page offset from `do_walk` (line 85): `offset = va & 0xFFF`. -/
def va_offset (va : Nat) : Nat := va &&& 0xFFF

/-- Reason a single-target walk stops without a mapping. -/
inductive FaultReason where
  | InvalidEntry : FaultReason
  | UnreadableMemory : FaultReason
deriving DecidableEq

/-- Result of the single-target walk of `do_walk`. The path records, in order,
one `(level, index, raw)` triple per successfully fetched descriptor.
`NoResult` models the Python loop falling through without setting `final_pa`;
it is unreachable from `do_walk` because level 3 always terminates. -/
inductive WalkResult where
  | Mapped (finalPa : Nat) (path : List (Nat × Nat × Nat)) : WalkResult
  | Fault (level : Nat) (reason : FaultReason) (path : List (Nat × Nat × Nat)) : WalkResult
  | NoResult (path : List (Nat × Nat × Nat)) : WalkResult
deriving DecidableEq

/-- The per-level rows of `do_walk` (lines 95-100): index, shift, and optional
block mask. Level 0 carries no block mask (`None` in the source); levels 1 and
2 carry the 1 GiB and 2 MiB block masks, level 3 the 4 KiB page mask. -/
def walkLevels (va : Nat) : List (Nat × Nat × Option Nat) :=
  [(l0_idx va, 39, none),
   (l1_idx va, 30, some 0x0000FFFFC0000000),
   (l2_idx va, 21, some 0x0000FFFFFFE00000),
   (l3_idx va, 12, some 0x0000FFFFFFFFF000)]

/-- The level loop of `do_walk` (lines 105-155). For each row: compute the
entry address, read 8 bytes (fault `UnreadableMemory` on failure), check the
valid bit (fault `InvalidEntry` when clear), then: level 3 is always a page;
a clear type bit at a level greater than 0 is a block mapped through the row's
block mask; everything else is a table pointer followed to the next level.
The `none` block-mask case is unreachable from `do_walk`: only the level-0 row
lacks a mask and the block branch requires `0 < level`. -/
def doWalkLoop (mem : Nat → Option Nat) (va : Nat) :
    List (Nat × Nat × Option Nat) → Nat → Nat → List (Nat × Nat × Nat) → WalkResult
  | [], _level, _cur, path => .NoResult path
  | (idx, shift, blockMask) :: rest, level, cur, path =>
    match mem (cur + idx * 8) with
    | none => .Fault level .UnreadableMemory path
    | some entry =>
      if entry &&& 1 = 0 then
        .Fault level .InvalidEntry (path ++ [(level, idx, entry)])
      else if level = 3 then
        .Mapped ((entry &&& 0x0000FFFFFFFFF000) ||| (va &&& 0xFFF))
          (path ++ [(level, idx, entry)])
      else if (entry >>> 1) &&& 1 = 0 ∧ 0 < level then
        match blockMask with
        | some bm =>
          .Mapped ((entry &&& bm) ||| (va &&& ((1 <<< shift) - 1)))
            (path ++ [(level, idx, entry)])
        | none => .NoResult (path ++ [(level, idx, entry)])
      else
        doWalkLoop mem va rest (level + 1) (entry &&& 0x0000FFFFFFFFF000)
          (path ++ [(level, idx, entry)])

/-- The single-target walk `WalkPageTable.do_walk` (lines 61-155): select the
TTBR by bit 55 of the address, mask it to bits 47:12, then run the level loop
from level 0 with an empty path. Register values are inputs here; the scripts
obtain them from the debugger before any memory is read. -/
def do_walk (mem : Nat → Option Nat) (ttbr0 ttbr1 va : Nat) : WalkResult :=
  let is_kernel := (va >>> 55) &&& 1
  let ttbr := if is_kernel = 1 then ttbr1 else ttbr0
  let table_pa := ttbr &&& 0x0000FFFFFFFFF000
  doWalkLoop mem va (walkLevels va) 0 table_pa []

/-- Descriptor classification produced by `decode_pte`. -/
inductive PteKind where
  | unreadable : PteKind
  | invalid : PteKind
  | table : PteKind
  | block : PteKind
  | page : PteKind
deriving DecidableEq

/-- Structured form of the string `decode_pte` produces: the classification,
the address embedded in the message, and the permission fields. For
unreadable and invalid entries the source returns a bare message, so the
numeric fields default to 0. -/
structure DecodedPte where
  kind : PteKind
  addr : Nat := 0
  ap : Nat := 0
  xn : Nat := 0
  pxn : Nat := 0
  af : Nat := 0
  sh : Nat := 0
  attrIdx : Nat := 0
deriving DecidableEq

/-- `Arm64PageTableWalk.decode_pte` (lines 76-107). The address is always
`entry & 0x0000FFFFFFFFF000` — bits 47:12 — for table, block and page alike.
Classification: below level 3 a set type bit means table, a clear one block;
level 3 is always page. -/
def decode_pte (entry : Option Nat) (level : Nat) : DecodedPte :=
  match entry with
  | none => { kind := .unreadable }
  | some e =>
    if e &&& 1 = 0 then { kind := .invalid }
    else
      let isTable := (e >>> 1) &&& 1
      let d : DecodedPte :=
        { kind := .invalid
          addr := e &&& 0x0000FFFFFFFFF000
          ap := (e >>> 6) &&& 0x3
          xn := (e >>> 54) &&& 1
          pxn := (e >>> 53) &&& 1
          af := (e >>> 10) &&& 1
          sh := (e >>> 8) &&& 0x3
          attrIdx := (e >>> 2) &&& 0x7 }
      if level < 3 ∧ isTable = 1 then { d with kind := .table }
      else if level < 3 then { d with kind := .block }
      else { d with kind := .page }

/-- `bits_per_level = [39, 30, 21, 12]` (line 112). -/
def bits_per_level : List Nat := [39, 30, 21, 12]

/-- One line of `walk_table` output: either an emitted entry (lines 147-148)
or the truncation marker (line 159). -/
inductive Ev where
  | node (level i va raw : Nat) (dec : DecodedPte) : Ev
  | trunc (level shown : Nat) : Ev
deriving DecidableEq

/-- The `for i in range(512)` loop of `walk_table` (lines 122-160), generic in
the recursive call `child` used for table descriptors. Returns the emitted
events and the list of entry addresses passed to `read_u64`, in order.
Unreadable and invalid entries are skipped; with a target address, indices
other than the target's index at this level are skipped after the read; an
emitted entry may recurse, and with no target the loop breaks with a
truncation marker once `max_entries` entries have been shown. -/
def walkLoop (mem : Nat → Option Nat) (tableAddr vaStart level : Nat)
    (targetVa : Option Nat) (maxEntries : Nat)
    (child : Nat → Nat → List Ev × List Nat) :
    List Nat → Nat → List Ev × List Nat
  | [], _shown => ([], [])
  | i :: rest, shown =>
    let entryAddr := tableAddr + i * 8
    match mem entryAddr with
    | none =>
      let r := walkLoop mem tableAddr vaStart level targetVa maxEntries child rest shown
      (r.1, entryAddr :: r.2)
    | some entry =>
      if entry &&& 1 = 0 then
        let r := walkLoop mem tableAddr vaStart level targetVa maxEntries child rest shown
        (r.1, entryAddr :: r.2)
      else
        let shift := bits_per_level.getD level 0
        let skipTarget : Bool :=
          match targetVa with
          | some t => i != (t >>> shift) &&& 0x1FF
          | none => false
        if skipTarget then
          let r := walkLoop mem tableAddr vaStart level targetVa maxEntries child rest shown
          (r.1, entryAddr :: r.2)
        else
          let va0 := vaStart ||| (i <<< shift)
          let va := if va0 &&& (1 <<< 47) ≠ 0 then va0 ||| 0xFFFF000000000000 else va0
          let dec := decode_pte (some entry) level
          let shown' := shown + 1
          let isTable := (entry >>> 1) &&& 1
          let childRes :=
            if level < 3 ∧ isTable = 1 then
              child (entry &&& 0x0000FFFFFFFFF000) (vaStart ||| (i <<< shift))
            else ([], [])
          if maxEntries ≤ shown' ∧ targetVa = none then
            (Ev.node level i va entry dec :: (childRes.1 ++ [Ev.trunc level shown']),
             entryAddr :: childRes.2)
          else
            let r := walkLoop mem tableAddr vaStart level targetVa maxEntries child rest shown'
            (Ev.node level i va entry dec :: (childRes.1 ++ r.1),
             entryAddr :: (childRes.2 ++ r.2))

/-- Fuel-indexed form of `walk_table`. The fuel realizes the source's
`if level > 3: return` guard together with the measure `4 - level`: the
recursion of `walk_table` only happens while `level < 3` and always at
`level + 1`, so `4 - level` strictly decreases and fuel `4 - level` never
runs out at a reachable call. -/
def walkTableAux (mem : Nat → Option Nat) (targetVa : Option Nat) (maxEntries : Nat) :
    Nat → Nat → Nat → Nat → List Ev × List Nat
  | 0, _tableAddr, _vaStart, _level => ([], [])
  | fuel + 1, tableAddr, vaStart, level =>
    walkLoop mem tableAddr vaStart level targetVa maxEntries
      (fun nextAddr childVa =>
        walkTableAux mem targetVa maxEntries fuel nextAddr childVa (level + 1))
      (List.range 512) 0

/-- `Arm64PageTableWalk.walk_table` (lines 109-160): iterate the 512 indices
of the table at `tableAddr`, at the given level, with an optional target
address and an entry cap. Returns the emitted events and the read log. -/
def walkTable (mem : Nat → Option Nat) (tableAddr vaStart level : Nat)
    (targetVa : Option Nat) (maxEntries : Nat) : List Ev × List Nat :=
  walkTableAux mem targetVa maxEntries (4 - level) tableAddr vaStart level

/-- Root selection of `Arm64PageTableWalk.invoke` in target mode
(lines 207-224): a kernel address is one at or above `0xFFFF000000000000`;
the chosen TTBR is masked with `0x0000FFFFFFFFFFFF` — the source comment says
`mask out ASID` — and paired with the starting virtual prefix. -/
def invoke_select (ttbr0 ttbr1 target_va : Nat) : Nat × Nat :=
  if 0xFFFF000000000000 ≤ target_va then
    (ttbr1 &&& 0x0000FFFFFFFFFFFF, 0xFFFF000000000000)
  else
    (ttbr0 &&& 0x0000FFFFFFFFFFFF, 0)

/-- Collapses a read result to what `walk_table` can observe of it before
emitting anything: a failed read and an invalid entry both produce a bare
skip, a valid entry is kept whole. -/
def entryClass : Option Nat → Option Nat
  | none => none
  | some v => if v &&& 1 = 0 then none else some v

/-- Recognizes emitted entries among the events. -/
def isNode : Ev → Bool
  | .node _ _ _ _ _ => true
  | .trunc _ _ => false

/-- An event respects a target address when it is an emitted entry whose index
is the target's index at the event's level; the truncation marker never
respects a target. -/
def evTargetOk (t : Nat) : Ev → Prop
  | .node level i _ _ _ => i = (t >>> bits_per_level.getD level 0) &&& 0x1FF
  | .trunc _ _ => False

/-- Fuel-indexed bound on the number of reads a `walk_table` call can issue:
each level reads at most 512 entries and recurses at most once per entry. -/
def readBoundAux : Nat → Nat
  | 0 => 0
  | fuel + 1 => 512 * (1 + readBoundAux fuel)

/-- Bound on the reads issued by `walk_table` when started at `level`. -/
def walkReadBound (level : Nat) : Nat := readBoundAux (4 - level)

/-- Concrete memory: the level-0 slot 0 at table `0x1000` holds a table
descriptor pointing at `0x2000`; the level-1 slot 0 there holds a block
descriptor whose raw value `0x40001601` has a nonzero bit inside bits 29:12;
every other address reads as an invalid entry. -/
def memC1 : Nat → Option Nat := fun a =>
  if a = 0x1000 then some 0x2003
  else if a = 0x2000 then some 0x40001601
  else some 0

/-- Concrete memory: slot 0 of the root table holds `5` — valid bit set, type
bit clear — and every other address reads as an invalid entry. -/
def memC5 : Nat → Option Nat := fun a => if a = 0 then some 5 else some 0

/-- Concrete memory: the read of slot 0 fails, slot 1 holds a valid block
descriptor, and every other address reads as an invalid entry. -/
def memC8 : Nat → Option Nat := fun a =>
  if a = 0 then none
  else if a = 8 then some 0x40000001
  else some 0

/-- Concrete memory: every address reads as the same valid block descriptor,
so every table has 512 valid entries. -/
def memAllValid : Nat → Option Nat := fun _ => some 0x40000001

/-- Concrete memory: every address reads as `3`, a valid table descriptor
pointing at physical address 0. -/
def memAllTables : Nat → Option Nat := fun _ => some 3

/-- Concrete memory: the read at address 16 fails, everything else is a valid
block descriptor. -/
def memW1 : Nat → Option Nat := fun a => if a = 16 then none else some 1

/-- Concrete memory: address 16 holds an invalid entry, everything else is a
valid block descriptor. -/
def memW2 : Nat → Option Nat := fun a => if a = 16 then some 0 else some 1

end PageWalk

namespace PageWalk

/-! ### Helper lemmas on bit masks -/

theorem testBit_mask9 (j : Nat) : Nat.testBit 0x1FF j = decide (j < 9) := by
  have h : (0x1FF : Nat) = 2 ^ 9 - 1 := by norm_num
  rw [h, Nat.testBit_two_pow_sub_one]

theorem testBit_mask12 (j : Nat) : Nat.testBit 0xFFF j = decide (j < 12) := by
  have h : (0xFFF : Nat) = 2 ^ 12 - 1 := by norm_num
  rw [h, Nat.testBit_two_pow_sub_one]

theorem testBit_mask48 (j : Nat) : Nat.testBit 0xFFFFFFFFFFFF j = decide (j < 48) := by
  have h : (0xFFFFFFFFFFFF : Nat) = 2 ^ 48 - 1 := by norm_num
  rw [h, Nat.testBit_two_pow_sub_one]

theorem index_shift_lt_two_pow_48 {x : Nat} (k : Nat) (hx : x < 2 ^ 9) (hk : k ≤ 39) :
    x <<< k < 2 ^ 48 := by
  rw [Nat.shiftLeft_eq]
  calc x * 2 ^ k < 2 ^ 9 * 2 ^ k := by
        exact Nat.mul_lt_mul_of_lt_of_le hx (Nat.le_refl _) (Nat.pos_pow_of_pos _ (by norm_num))
    _ = 2 ^ (9 + k) := by rw [Nat.pow_add]
    _ ≤ 2 ^ 48 := Nat.pow_le_pow_right (by norm_num) (by omega)

theorem index_lt_two_pow_9 (x : Nat) : x &&& 0x1FF < 2 ^ 9 :=
  Nat.lt_of_le_of_lt Nat.and_le_right (by norm_num)

/-- C2: the four 9-bit indices and the 12-bit offset extracted by `do_walk`
losslessly reconstruct the low 48 bits of the virtual address:
`(idx0 <<< 39) ||| (idx1 <<< 30) ||| (idx2 <<< 21) ||| (idx3 <<< 12) ||| offset`
equals `va &&& 0xFFFFFFFFFFFF` for every `va`; the decomposition is a total
pure function with no failure case. -/
theorem c2_decompose_reconstruct (va : Nat) :
    (l0_idx va <<< 39) ||| (l1_idx va <<< 30) ||| (l2_idx va <<< 21) |||
      (l3_idx va <<< 12) ||| va_offset va = va &&& 0xFFFFFFFFFFFF := by
  apply Nat.eq_of_testBit_eq
  intro i
  rcases Nat.lt_or_ge i 48 with h48 | h48
  · simp only [l0_idx, l1_idx, l2_idx, l3_idx, va_offset, Nat.testBit_or, Nat.testBit_and,
      Nat.testBit_shiftLeft, Nat.testBit_shiftRight, testBit_mask9, testBit_mask12,
      testBit_mask48]
    interval_cases i <;> simp
  · have h1 : (l0_idx va <<< 39) ||| (l1_idx va <<< 30) ||| (l2_idx va <<< 21) |||
        (l3_idx va <<< 12) ||| va_offset va < 2 ^ 48 := by
      refine Nat.or_lt_two_pow (Nat.or_lt_two_pow (Nat.or_lt_two_pow (Nat.or_lt_two_pow
        ?_ ?_) ?_) ?_) ?_
      · exact index_shift_lt_two_pow_48 39 (index_lt_two_pow_9 _) (by omega)
      · exact index_shift_lt_two_pow_48 30 (index_lt_two_pow_9 _) (by omega)
      · exact index_shift_lt_two_pow_48 21 (index_lt_two_pow_9 _) (by omega)
      · exact index_shift_lt_two_pow_48 12 (index_lt_two_pow_9 _) (by omega)
      · exact Nat.lt_of_le_of_lt Nat.and_le_right (by norm_num)
    have h2 : va &&& 0xFFFFFFFFFFFF < 2 ^ 48 :=
      Nat.lt_of_le_of_lt Nat.and_le_right (by norm_num)
    rw [Nat.testBit_lt_two_pow (Nat.lt_of_lt_of_le h1 (Nat.pow_le_pow_right (by norm_num) h48)),
      Nat.testBit_lt_two_pow (Nat.lt_of_lt_of_le h2 (Nat.pow_le_pow_right (by norm_num) h48))]

/-! ### Single-target walk: fault and descent behavior -/

/-- C7: in the single-target walk, whenever the descriptor fetched at the
current level has its valid bit clear, the walk stops at once with an
`InvalidEntry` fault reporting exactly that level; the remaining levels
(`rest`) are never consulted, and the recorded path is the visited prefix
extended by exactly the faulting entry — no partial mapping is produced and
the fault is the returned result, never ignored. -/
theorem c7_invalid_entry_fault (mem : Nat → Option Nat) (va idx shift : Nat)
    (bm : Option Nat) (rest : List (Nat × Nat × Option Nat)) (level cur : Nat)
    (path : List (Nat × Nat × Nat)) (e : Nat)
    (hread : mem (cur + idx * 8) = some e) (hinv : e &&& 1 = 0) :
    doWalkLoop mem va ((idx, shift, bm) :: rest) level cur path =
      .Fault level .InvalidEntry (path ++ [(level, idx, e)]) := by
  simp only [doWalkLoop, hread, hinv, if_pos]

/-- C7 witness: a level-0 entry that reads back as `4` (valid bit clear)
faults immediately with `InvalidEntry` at level 0 and a one-entry path. -/
theorem c7_witness :
    doWalkLoop (fun a => if a = 0 then some 4 else none) 0 [(0, 39, none)] 0 0 [] =
      .Fault 0 .InvalidEntry [(0, 0, 4)] :=
  c7_invalid_entry_fault (fun a => if a = 0 then some 4 else none) 0 0 39 none [] 0 0 [] 4
    (by decide) (by decide)

end PageWalk

namespace PageWalk

/-! ### Unfolding and evaluation lemmas for the enumeration -/

theorem walkTable_unfold (mem : Nat → Option Nat) (tgt : Option Nat) (cap tA vS level : Nat) :
    walkTable mem tA vS level tgt cap =
      if 3 < level then ([], [])
      else
        walkLoop mem tA vS level tgt cap
          (fun a p => walkTable mem a p (level + 1) tgt cap) (List.range 512) 0 := by
  by_cases h : 3 < level
  · have h0 : 4 - level = 0 := by omega
    simp only [walkTable, h0, walkTableAux, if_pos h]
  · have h4 : 4 - level = (4 - (level + 1)) + 1 := by omega
    simp only [walkTable, h4, walkTableAux, if_neg h]

theorem walkLoop_skip (mem : Nat → Option Nat) (tA vS level : Nat) (tgt : Option Nat)
    (cap : Nat) (child : Nat → Nat → List Ev × List Nat) (i : Nat) (rest : List Nat)
    (shown : Nat)
    (h : entryClass (mem (tA + i * 8)) = none ∨
      ∃ t, tgt = some t ∧ i ≠ (t >>> bits_per_level.getD level 0) &&& 0x1FF) :
    walkLoop mem tA vS level tgt cap child (i :: rest) shown =
      ((walkLoop mem tA vS level tgt cap child rest shown).1,
       (tA + i * 8) :: (walkLoop mem tA vS level tgt cap child rest shown).2) := by
  cases hm : mem (tA + i * 8) with
  | none => simp only [walkLoop, hm]
  | some e =>
    rcases h with h | ⟨t, ht, hi⟩
    · have he : e &&& 1 = 0 := by
        simp only [entryClass, hm] at h
        split at h
        · assumption
        · simp at h
      simp only [walkLoop, hm]
      rw [if_pos he]
    · by_cases he : e &&& 1 = 0
      · simp only [walkLoop, hm]
        rw [if_pos he]
      · subst ht
        have hb : (i != (t >>> bits_per_level.getD level 0) &&& 0x1FF) = true := by
          simp only [bne_iff_ne, ne_eq]
          exact hi
        simp only [walkLoop, hm]
        rw [if_neg he, hb, if_pos rfl]

theorem walkLoop_run_of_skips (mem : Nat → Option Nat) (tA vS level : Nat)
    (tgt : Option Nat) (cap : Nat) (child : Nat → Nat → List Ev × List Nat) :
    ∀ (ixs : List Nat) (shown : Nat),
      (∀ i ∈ ixs, entryClass (mem (tA + i * 8)) = none ∨
        ∃ t, tgt = some t ∧ i ≠ (t >>> bits_per_level.getD level 0) &&& 0x1FF) →
      walkLoop mem tA vS level tgt cap child ixs shown =
        ([], ixs.map (fun i => tA + i * 8))
  | [], _, _ => rfl
  | i :: rest, shown, h => by
    rw [walkLoop_skip mem tA vS level tgt cap child i rest shown (h i (by simp)),
      walkLoop_run_of_skips mem tA vS level tgt cap child rest shown
        (fun j hj => h j (by simp [hj]))]
    simp

theorem walkLoop_emit (mem : Nat → Option Nat) (tA vS level : Nat) (tgt : Option Nat)
    (cap : Nat) (child : Nat → Nat → List Ev × List Nat) (i : Nat) (rest : List Nat)
    (shown e : Nat) (hm : mem (tA + i * 8) = some e) (hv : e &&& 1 = 1)
    (htgt : ∀ t, tgt = some t → i = (t >>> bits_per_level.getD level 0) &&& 0x1FF) :
    walkLoop mem tA vS level tgt cap child (i :: rest) shown =
      (if cap ≤ shown + 1 ∧ tgt = none then
         (Ev.node level i
            (if (vS ||| i <<< bits_per_level.getD level 0) &&& 1 <<< 47 ≠ 0 then
               vS ||| i <<< bits_per_level.getD level 0 ||| 0xFFFF000000000000
             else vS ||| i <<< bits_per_level.getD level 0)
            e (decode_pte (some e) level) ::
            ((if level < 3 ∧ (e >>> 1) &&& 1 = 1 then
                child (e &&& 0x0000FFFFFFFFF000) (vS ||| i <<< bits_per_level.getD level 0)
              else ([], [])).1 ++ [Ev.trunc level (shown + 1)]),
          (tA + i * 8) ::
            (if level < 3 ∧ (e >>> 1) &&& 1 = 1 then
                child (e &&& 0x0000FFFFFFFFF000) (vS ||| i <<< bits_per_level.getD level 0)
              else ([], [])).2)
       else
         (Ev.node level i
            (if (vS ||| i <<< bits_per_level.getD level 0) &&& 1 <<< 47 ≠ 0 then
               vS ||| i <<< bits_per_level.getD level 0 ||| 0xFFFF000000000000
             else vS ||| i <<< bits_per_level.getD level 0)
            e (decode_pte (some e) level) ::
            ((if level < 3 ∧ (e >>> 1) &&& 1 = 1 then
                child (e &&& 0x0000FFFFFFFFF000) (vS ||| i <<< bits_per_level.getD level 0)
              else ([], [])).1 ++
              (walkLoop mem tA vS level tgt cap child rest (shown + 1)).1),
          (tA + i * 8) ::
            ((if level < 3 ∧ (e >>> 1) &&& 1 = 1 then
                child (e &&& 0x0000FFFFFFFFF000) (vS ||| i <<< bits_per_level.getD level 0)
              else ([], [])).2 ++
              (walkLoop mem tA vS level tgt cap child rest (shown + 1)).2))) := by
  have he : ¬ e &&& 1 = 0 := by omega
  cases tgt with
  | none =>
    simp only [walkLoop, hm]
    rw [if_neg he, if_neg Bool.false_ne_true]
  | some t =>
    have hi : (i != (t >>> bits_per_level.getD level 0) &&& 0x1FF) = false := by
      simp [htgt t rfl]
    simp only [walkLoop, hm]
    rw [if_neg he, hi, if_neg Bool.false_ne_true]

end PageWalk

namespace PageWalk

theorem and_one_eq_one_of_ne_zero {e : Nat} (h : ¬ e &&& 1 = 0) : e &&& 1 = 1 := by
  have h2 : e &&& 1 = e % 2 := Nat.and_one_is_mod e
  omega

theorem childRes_reads_le {child : Nat → Nat → List Ev × List Nat} {k : Nat}
    (hchild : ∀ a p, (child a p).2.length ≤ k) (cond : Prop) [Decidable cond]
    (a p : Nat) :
    (if cond then child a p else (([] : List Ev), ([] : List Nat))).2.length ≤ k := by
  split
  · exact hchild a p
  · simp

theorem walkLoop_target_ok (mem : Nat → Option Nat) (tA vS level t cap : Nat)
    (child : Nat → Nat → List Ev × List Nat)
    (hchild : ∀ a p, ∀ ev ∈ (child a p).1, evTargetOk t ev) :
    ∀ (ixs : List Nat) (shown : Nat),
      ∀ ev ∈ (walkLoop mem tA vS level (some t) cap child ixs shown).1, evTargetOk t ev
  | [], _shown => by
    intro ev hev
    simp [walkLoop] at hev
  | i :: rest, shown => by
    intro ev hev
    cases hm : mem (tA + i * 8) with
    | none =>
      rw [walkLoop_skip mem tA vS level (some t) cap child i rest shown
        (Or.inl (by simp [entryClass, hm]))] at hev
      exact walkLoop_target_ok mem tA vS level t cap child hchild rest shown ev hev
    | some e =>
      by_cases he : e &&& 1 = 0
      · rw [walkLoop_skip mem tA vS level (some t) cap child i rest shown
          (Or.inl (by simp [entryClass, hm, he]))] at hev
        exact walkLoop_target_ok mem tA vS level t cap child hchild rest shown ev hev
      · by_cases hidx : i = (t >>> bits_per_level.getD level 0) &&& 0x1FF
        · rw [walkLoop_emit mem tA vS level (some t) cap child i rest shown e hm
            (and_one_eq_one_of_ne_zero he) (by intro t' ht'; cases ht'; exact hidx)] at hev
          rw [if_neg (by simp)] at hev
          rcases List.mem_cons.mp hev with rfl | hev
          · exact hidx
          · rcases List.mem_append.mp hev with h | h
            · rcases (em (level < 3 ∧ (e >>> 1) &&& 1 = 1)) with hc | hc
              · rw [if_pos hc] at h
                exact hchild _ _ ev h
              · rw [if_neg hc] at h
                simp at h
            · exact walkLoop_target_ok mem tA vS level t cap child hchild rest (shown + 1) ev h
        · rw [walkLoop_skip mem tA vS level (some t) cap child i rest shown
            (Or.inr ⟨t, rfl, hidx⟩)] at hev
          exact walkLoop_target_ok mem tA vS level t cap child hchild rest shown ev hev

theorem walkTableAux_target_ok (mem : Nat → Option Nat) (t cap : Nat) :
    ∀ (fuel tA vS level : Nat),
      ∀ ev ∈ (walkTableAux mem (some t) cap fuel tA vS level).1, evTargetOk t ev
  | 0, _tA, _vS, _level => by
    intro ev hev
    simp [walkTableAux] at hev
  | fuel + 1, tA, vS, level => by
    intro ev hev
    exact walkLoop_target_ok mem tA vS level t cap
      (fun a p => walkTableAux mem (some t) cap fuel a p (level + 1))
      (fun a p => walkTableAux_target_ok mem t cap fuel a p (level + 1))
      (List.range 512) 0 ev hev

theorem walkLoop_congr (mem1 mem2 : Nat → Option Nat) (tA vS level : Nat)
    (tgt : Option Nat) (cap : Nat) (child1 child2 : Nat → Nat → List Ev × List Nat)
    (hmem : ∀ x, entryClass (mem1 x) = entryClass (mem2 x))
    (hchild : ∀ a p, child1 a p = child2 a p) :
    ∀ (ixs : List Nat) (shown : Nat),
      walkLoop mem1 tA vS level tgt cap child1 ixs shown =
        walkLoop mem2 tA vS level tgt cap child2 ixs shown
  | [], _shown => rfl
  | i :: rest, shown => by
    have ih := walkLoop_congr mem1 mem2 tA vS level tgt cap child1 child2 hmem hchild rest
    have hx := hmem (tA + i * 8)
    have skip2 :
        entryClass (mem1 (tA + i * 8)) = none →
        walkLoop mem1 tA vS level tgt cap child1 (i :: rest) shown =
          walkLoop mem2 tA vS level tgt cap child2 (i :: rest) shown := by
      intro hskip
      rw [walkLoop_skip mem1 tA vS level tgt cap child1 i rest shown (Or.inl hskip),
        walkLoop_skip mem2 tA vS level tgt cap child2 i rest shown
          (Or.inl (hx ▸ hskip)), ih]
    cases hm1 : mem1 (tA + i * 8) with
    | none => exact skip2 (by simp [entryClass, hm1])
    | some e1 =>
      by_cases he1 : e1 &&& 1 = 0
      · exact skip2 (by simp [entryClass, hm1, he1])
      · have hodd : entryClass (mem1 (tA + i * 8)) = some e1 := by
          rw [hm1]
          simp only [entryClass]
          rw [if_neg he1]
        have hm2 : mem2 (tA + i * 8) = some e1 := by
          rw [hodd] at hx
          cases hm2 : mem2 (tA + i * 8) with
          | none => rw [hm2] at hx; simp [entryClass] at hx
          | some e2 =>
            rw [hm2] at hx
            simp only [entryClass] at hx
            split at hx
            · exact absurd hx (by simp)
            · rw [Option.some_inj.mp hx.symm]
        have htodd : ∀ t', tgt = some t' →
            i ≠ (t' >>> bits_per_level.getD level 0) &&& 0x1FF →
            walkLoop mem1 tA vS level tgt cap child1 (i :: rest) shown =
              walkLoop mem2 tA vS level tgt cap child2 (i :: rest) shown := by
          intro t' ht' hne
          rw [walkLoop_skip mem1 tA vS level tgt cap child1 i rest shown
              (Or.inr ⟨t', ht', hne⟩),
            walkLoop_skip mem2 tA vS level tgt cap child2 i rest shown
              (Or.inr ⟨t', ht', hne⟩), ih]
        have hemit : (∀ t', tgt = some t' →
            i = (t' >>> bits_per_level.getD level 0) &&& 0x1FF) →
            walkLoop mem1 tA vS level tgt cap child1 (i :: rest) shown =
              walkLoop mem2 tA vS level tgt cap child2 (i :: rest) shown := by
          intro hok
          rw [walkLoop_emit mem1 tA vS level tgt cap child1 i rest shown e1 hm1
              (and_one_eq_one_of_ne_zero he1) hok,
            walkLoop_emit mem2 tA vS level tgt cap child2 i rest shown e1 hm2
              (and_one_eq_one_of_ne_zero he1) hok]
          simp only [hchild, ih]
        cases tgt with
        | none => exact hemit (by intro t' ht'; cases ht')
        | some t' =>
          by_cases hidx : i = (t' >>> bits_per_level.getD level 0) &&& 0x1FF
          · exact hemit (by intro t'' ht''; cases ht''; exact hidx)
          · exact htodd t' rfl hidx

theorem walkTableAux_congr (mem1 mem2 : Nat → Option Nat) (tgt : Option Nat) (cap : Nat)
    (hmem : ∀ x, entryClass (mem1 x) = entryClass (mem2 x)) :
    ∀ (fuel tA vS level : Nat),
      walkTableAux mem1 tgt cap fuel tA vS level =
        walkTableAux mem2 tgt cap fuel tA vS level
  | 0, _tA, _vS, _level => rfl
  | fuel + 1, tA, vS, level => by
    exact walkLoop_congr mem1 mem2 tA vS level tgt cap _ _ hmem
      (fun a p => walkTableAux_congr mem1 mem2 tgt cap hmem fuel a p (level + 1))
      (List.range 512) 0

end PageWalk

namespace PageWalk

theorem walkLoop_reads_le (mem : Nat → Option Nat) (tA vS level : Nat)
    (tgt : Option Nat) (cap : Nat) (child : Nat → Nat → List Ev × List Nat) (k : Nat)
    (hchild : ∀ a p, (child a p).2.length ≤ k) :
    ∀ (ixs : List Nat) (shown : Nat),
      (walkLoop mem tA vS level tgt cap child ixs shown).2.length ≤
        ixs.length * (1 + k)
  | [], _shown => by simp [walkLoop]
  | i :: rest, shown => by
    have ih := walkLoop_reads_le mem tA vS level tgt cap child k hchild rest
    cases hm : mem (tA + i * 8) with
    | none =>
      simp only [walkLoop, hm, List.length_cons]
      have h1 := ih shown
      rw [Nat.succ_mul]
      omega
    | some e =>
      simp only [walkLoop, hm]
      by_cases he : e &&& 1 = 0
      · rw [if_pos he]
        simp only [List.length_cons]
        have h1 := ih shown
        rw [Nat.succ_mul]
        omega
      · rw [if_neg he]
        split
        · simp only [List.length_cons]
          have h1 := ih shown
          rw [Nat.succ_mul]
          omega
        · have hc := childRes_reads_le hchild
            (level < 3 ∧ (e >>> 1) &&& 1 = 1) (e &&& 0x0000FFFFFFFFF000)
            (vS ||| (i <<< bits_per_level.getD level 0))
          split
          · simp only [List.length_cons]
            rw [Nat.succ_mul]
            omega
          · simp only [List.length_cons, List.length_append]
            have h1 := ih (shown + 1)
            rw [Nat.succ_mul]
            omega

theorem walkTableAux_reads_le (mem : Nat → Option Nat) (tgt : Option Nat) (cap : Nat) :
    ∀ (fuel tA vS level : Nat),
      (walkTableAux mem tgt cap fuel tA vS level).2.length ≤ readBoundAux fuel
  | 0, _tA, _vS, _level => by simp [walkTableAux, readBoundAux]
  | fuel + 1, tA, vS, level => by
    have h := walkLoop_reads_le mem tA vS level tgt cap
      (fun a p => walkTableAux mem tgt cap fuel a p (level + 1)) (readBoundAux fuel)
      (fun a p => walkTableAux_reads_le mem tgt cap fuel a p (level + 1))
      (List.range 512) 0
    simpa [walkTableAux, readBoundAux, List.length_range, Nat.mul_comm] using h

theorem walkLoop_reads_level3 (mem : Nat → Option Nat) (tA vS t cap : Nat)
    (child : Nat → Nat → List Ev × List Nat) :
    ∀ (ixs : List Nat) (shown : Nat),
      (walkLoop mem tA vS 3 (some t) cap child ixs shown).2 =
        ixs.map (fun i => tA + i * 8)
  | [], _shown => rfl
  | i :: rest, shown => by
    have ih := walkLoop_reads_level3 mem tA vS t cap child rest
    cases hm : mem (tA + i * 8) with
    | none =>
      rw [walkLoop_skip mem tA vS 3 (some t) cap child i rest shown
        (Or.inl (by simp [entryClass, hm]))]
      simp [ih shown]
    | some e =>
      by_cases he : e &&& 1 = 0
      · rw [walkLoop_skip mem tA vS 3 (some t) cap child i rest shown
          (Or.inl (by rw [hm]; simp only [entryClass]; rw [if_pos he]))]
        simp [ih shown]
      · by_cases hidx : i = (t >>> bits_per_level.getD 3 0) &&& 0x1FF
        · rw [walkLoop_emit mem tA vS 3 (some t) cap child i rest shown e hm
            (and_one_eq_one_of_ne_zero he) (by intro t' ht'; cases ht'; exact hidx)]
          simp only [if_neg (show ¬((3 : Nat) < 3 ∧ (e >>> 1) &&& 1 = 1) from by simp),
            if_neg (show ¬(cap ≤ shown + 1 ∧ (some t : Option Nat) = none) from by simp)]
          simp [ih (shown + 1)]
        · rw [walkLoop_skip mem tA vS 3 (some t) cap child i rest shown
            (Or.inr ⟨t, rfl, hidx⟩)]
          simp [ih shown]

theorem walkLoop_trunc_run (mem : Nat → Option Nat) (tA vS level cap : Nat)
    (child : Nat → Nat → List Ev × List Nat) :
    ∀ (ixs : List Nat) (shown : Nat),
      (∀ i ∈ ixs, ∃ e, mem (tA + i * 8) = some e ∧ e &&& 1 = 1 ∧
          ¬(level < 3 ∧ (e >>> 1) &&& 1 = 1)) →
      shown < cap → cap ≤ shown + ixs.length →
      (walkLoop mem tA vS level none cap child ixs shown).1.countP isNode =
          cap - shown ∧
      (walkLoop mem tA vS level none cap child ixs shown).1.getLast? =
        some (.trunc level cap)
  | [], shown => by
    intro _h hlt hle
    simp at hle
    omega
  | i :: rest, shown => by
    intro h hlt hle
    obtain ⟨e, hm, hv, hnt⟩ := h i (by simp)
    rw [walkLoop_emit mem tA vS level none cap child i rest shown e hm hv
      (by intro t' ht'; cases ht')]
    simp only [if_neg hnt]
    by_cases hbreak : cap ≤ shown + 1
    · rw [if_pos (show cap ≤ shown + 1 ∧ True from ⟨hbreak, trivial⟩)]
      have hcap : shown + 1 = cap := by omega
      constructor
      · simp [List.countP_cons, isNode]
        omega
      · simp [List.getLast?, hcap]
    · rw [if_neg (show ¬(cap ≤ shown + 1 ∧ True) from fun hh => hbreak hh.1)]
      have hrec := walkLoop_trunc_run mem tA vS level cap child rest (shown + 1)
        (fun j hj => h j (by simp [hj])) (by omega) (by simp at hle ⊢; omega)
      obtain ⟨hcount, hlast⟩ := hrec
      constructor
      · simp only [List.nil_append, List.countP_cons, isNode, hcount, if_true]
        omega
      · obtain ⟨ys, hys⟩ := List.getLast?_eq_some_iff.mp hlast
        simp only [List.nil_append]
        rw [hys, ← List.cons_append, List.getLast?_concat]

end PageWalk

namespace PageWalk

theorem range_512_eq : List.range 512 = 0 :: List.range' 1 511 := by
  rw [List.range_eq_range', show (512 : Nat) = 511 + 1 from rfl, List.range'_succ]

theorem range_512_eq2 : List.range 512 = 0 :: 1 :: List.range' 2 510 := by
  rw [range_512_eq, show (511 : Nat) = 510 + 1 from rfl, List.range'_succ]

theorem walkLoop_target0_tail (mem : Nat → Option Nat) (tA vS level cap : Nat)
    (child : Nat → Nat → List Ev × List Nat) (s n : Nat) (hs : 1 ≤ s) (shown : Nat) :
    walkLoop mem tA vS level (some 0) cap child (List.range' s n) shown =
      ([], (List.range' s n).map (fun i => tA + i * 8)) := by
  apply walkLoop_run_of_skips
  intro i hi
  right
  refine ⟨0, rfl, ?_⟩
  rw [List.mem_range'] at hi
  obtain ⟨j, hj, rfl⟩ := hi
  simp only [Nat.zero_shiftRight, Nat.zero_and]
  omega

/-- C10: the recursive enumeration terminates on every memory contents — it is
a total function of the memory, modelled with the measure `4 - level` that the
source realizes through its `if level > 3: return` guard and its
`level + 1`-only recursion — and the number of descriptor reads it performs is
bounded by `walkReadBound level` (512 reads per table and at most one child
table per entry, to depth at most 4), independently of the memory, so
self-referential or cyclic table graphs cannot make it loop or grow without
bound. -/
theorem c10_enumeration_bounded (mem : Nat → Option Nat) (tA vS level : Nat)
    (tgt : Option Nat) (cap : Nat) :
    (walkTable mem tA vS level tgt cap).2.length ≤ walkReadBound level :=
  walkTableAux_reads_le mem tgt cap (4 - level) tA vS level

/-- C8 (amended): during enumeration a failed read and an invalid entry are
handled identically — both are silently skipped, with no flag on the entry:
two memories whose reads agree after collapsing both failure cases produce
exactly the same events and the same read log. In particular a read failure
is not escalated or flagged, contrary to the claim; it is omitted exactly
like an unmapped slot, and enumeration of the rest of the table continues. -/
theorem c8_amended (mem1 mem2 : Nat → Option Nat) (tA vS level : Nat)
    (tgt : Option Nat) (cap : Nat)
    (hmem : ∀ x, entryClass (mem1 x) = entryClass (mem2 x)) :
    walkTable mem1 tA vS level tgt cap = walkTable mem2 tA vS level tgt cap :=
  walkTableAux_congr mem1 mem2 tgt cap hmem (4 - level) tA vS level

/-- C8 witness: a memory whose read at address 16 fails and one whose entry at
address 16 is invalid give identical enumeration output. -/
theorem c8_witness :
    walkTable memW1 0 0 0 none 10 = walkTable memW2 0 0 0 none 10 :=
  c8_amended memW1 memW2 0 0 0 none 10 (by
    intro x
    by_cases hx : x = 16 <;> simp [memW1, memW2, entryClass, hx])

end PageWalk

namespace PageWalk

/-- C9: on a table whose 512 entries are all valid, enumeration with
`maxEntriesPerTable = 10` and no target emits exactly 10 entry nodes and ends
with an explicit truncation marker carrying the count — truncation is never
silent; and with a target filter supplied, even a cap of 1 emits exactly the
single matching entry with no truncation marker — the cap never truncates a
targeted walk. -/
theorem c9_truncation_scenario :
    ((walkTable memAllValid 0 0 0 none 10).1.countP isNode = 10 ∧
      (walkTable memAllValid 0 0 0 none 10).1.getLast? = some (.trunc 0 10)) ∧
    (walkTable memAllValid 0 0 0 (some 0) 1).1 =
      [Ev.node 0 0 0 0x40000001 { kind := .block, addr := 0x40000000 }] := by
  constructor
  · have hmain := walkLoop_trunc_run memAllValid 0 0 0 10
      (fun a p => walkTable memAllValid a p (0 + 1) none 10) (List.range 512) 0
      (fun i _hi => ⟨0x40000001, rfl, by decide, by decide⟩)
      (by norm_num) (by simp [List.length_range])
    rw [walkTable_unfold, if_neg (by omega)]
    exact ⟨by simpa using hmain.1, hmain.2⟩
  · rw [walkTable_unfold, if_neg (by omega), range_512_eq]
    rw [walkLoop_emit memAllValid 0 0 0 (some 0) 1 _ 0 (List.range' 1 511) 0
      0x40000001 rfl (by decide) (by intro t ht; cases ht; decide)]
    rw [if_neg (by simp)]
    rw [walkLoop_target0_tail memAllValid 0 0 0 1 _ 1 511 (by norm_num)]
    rw [if_neg (by decide)]
    decide

end PageWalk

namespace PageWalk

/-- C6 (amended): with a target filter, only the matching index is emitted or
descended into — every emitted event is a node whose index equals the
target's index at that node's level, and no truncation marker appears — but
the filter does not avoid memory reads: at the leaf level the read log of a
targeted walk is exactly the 512 entry addresses of the table, one read per
index, matching or not. -/
theorem c6_amended :
    (∀ (mem : Nat → Option Nat) (tA vS level cap t : Nat),
        ∀ ev ∈ (walkTable mem tA vS level (some t) cap).1, evTargetOk t ev) ∧
    (∀ (mem : Nat → Option Nat) (tA vS t cap : Nat),
        (walkTable mem tA vS 3 (some t) cap).2 =
          (List.range 512).map (fun i => tA + i * 8)) := by
  constructor
  · intro mem tA vS level cap t ev hev
    exact walkTableAux_target_ok mem t cap (4 - level) tA vS level ev hev
  · intro mem tA vS t cap
    rw [walkTable_unfold, if_neg (by omega)]
    exact walkLoop_reads_level3 mem tA vS t cap _ (List.range 512) 0

/-- C6 counterexample: a targeted walk at the leaf level reads every one of
the 512 entry addresses; in particular the entry of index 1 is read even
though the target's index is 0, refuting that non-matching indices are
skipped without a memory read. -/
theorem c6_counterexample :
    (walkTable memAllTables 0 0 3 (some 0) 512).2 =
      (List.range 512).map (fun i => 0 + i * 8) ∧
    (0 + 1 * 8) ∈ (walkTable memAllTables 0 0 3 (some 0) 512).2 := by
  have h : (walkTable memAllTables 0 0 3 (some 0) 512).2 =
      (List.range 512).map (fun i => 0 + i * 8) := by
    rw [walkTable_unfold, if_neg (by omega)]
    exact walkLoop_reads_level3 memAllTables 0 0 0 512 _ (List.range 512) 0
  refine ⟨h, ?_⟩
  rw [h]
  exact List.mem_map.mpr ⟨1, by simp, rfl⟩

/-- C6 witness: a concrete targeted walk whose single emitted node respects
the target index at its level, and the leaf-level read log equality at a
concrete memory. -/
theorem c6_witness :
    evTargetOk 0 (Ev.node 3 0 0 3 { kind := .page }) ∧
    (walkTable memAllTables 0 0 3 (some 0) 512).2 =
      (List.range 512).map (fun i => 0 + i * 8) := by
  constructor
  · apply c6_amended.1 memAllTables 0 0 3 512 0
    rw [walkTable_unfold, if_neg (by omega), range_512_eq]
    rw [walkLoop_emit memAllTables 0 0 3 (some 0) 512 _ 0 (List.range' 1 511) 0 3
      rfl (by decide) (by intro t ht; cases ht; decide)]
    rw [if_neg (by simp)]
    rw [walkLoop_target0_tail memAllTables 0 0 3 512 _ 1 511 (by norm_num)]
    rw [if_neg (by decide)]
    decide
  · exact c6_amended.2 memAllTables 0 0 0 512

/-- C8 counterexample: in full enumeration over a memory whose read at
index 0 fails and whose index 1 holds a valid block, the output contains a
single node — for index 1 — and nothing at all for index 0: the read
failure is silently omitted rather than flagged, while enumeration of the
rest of the table continues (all 512 entries are still read). -/
theorem c8_counterexample :
    (walkTable memC8 0 0 0 none 10).1 =
      [Ev.node 0 1 0x8000000000 0x40000001 { kind := .block, addr := 0x40000000 }] ∧
    (walkTable memC8 0 0 0 none 10).2.length = 512 := by
  have htail : ∀ i ∈ List.range' 2 510,
      entryClass (memC8 (0 + i * 8)) = none ∨
      ∃ t, (none : Option Nat) = some t ∧
        i ≠ (t >>> bits_per_level.getD 0 0) &&& 0x1FF := by
    intro i hi
    left
    rw [List.mem_range'] at hi
    obtain ⟨j, hj, rfl⟩ := hi
    have h1 : 0 + (2 + 1 * j) * 8 ≠ 0 := by omega
    have h2 : 0 + (2 + 1 * j) * 8 ≠ 8 := by omega
    have hmem : memC8 (0 + (2 + 1 * j) * 8) = some 0 := by
      simp only [memC8]
      rw [if_neg h1, if_neg h2]
    rw [hmem]
    simp [entryClass]
  rw [walkTable_unfold, if_neg (by omega), range_512_eq2]
  rw [walkLoop_skip memC8 0 0 0 none 10 _ 0 (1 :: List.range' 2 510) 0
    (Or.inl (by simp [memC8, entryClass]))]
  rw [walkLoop_emit memC8 0 0 0 none 10 _ 1 (List.range' 2 510) 0 0x40000001
    (by decide) (by decide) (by intro t ht; cases ht)]
  rw [if_neg (by simp)]
  rw [walkLoop_run_of_skips memC8 0 0 0 none 10 _ (List.range' 2 510) _ htail]
  rw [if_neg (by decide)]
  constructor
  · decide
  · simp [List.length_range']

/-- C5 counterexample: the enumeration script classifies a valid level-0
entry with type bit 0 (raw value 5) as a Block leaf and does not descend:
the single emitted node is a block and only the 512 level-0 entries are read
— no level-1 table is visited — refuting that a valid level-0 descriptor is
always classified and followed as a Table. -/
theorem c5_counterexample :
    (walkTable memC5 0 0 0 none 10).1 =
      [Ev.node 0 0 0 5 { kind := .block, attrIdx := 1 }] ∧
    (walkTable memC5 0 0 0 none 10).2.length = 512 := by
  have htail : ∀ i ∈ List.range' 1 511,
      entryClass (memC5 (0 + i * 8)) = none ∨
      ∃ t, (none : Option Nat) = some t ∧
        i ≠ (t >>> bits_per_level.getD 0 0) &&& 0x1FF := by
    intro i hi
    left
    rw [List.mem_range'] at hi
    obtain ⟨j, hj, rfl⟩ := hi
    have h1 : 0 + (1 + 1 * j) * 8 ≠ 0 := by omega
    simp [memC5, entryClass, h1]
  rw [walkTable_unfold, if_neg (by omega), range_512_eq]
  rw [walkLoop_emit memC5 0 0 0 none 10 _ 0 (List.range' 1 511) 0 5
    (by decide) (by decide) (by intro t ht; cases ht)]
  rw [if_neg (by simp)]
  rw [walkLoop_run_of_skips memC5 0 0 0 none 10 _ (List.range' 1 511) _ htail]
  rw [if_neg (by decide)]
  constructor
  · decide
  · simp [List.length_range']

/-- C1 counterexample: a targeted enumeration walk that terminates at a
level-1 Block reports, on its block node, the output address masked with the
4 KiB page mask `0x0000FFFFFFFFF000` — here `0x40001000`, keeping a bit
inside bits 29:12 of the raw descriptor — while the claim's formula
`(raw &&& levelMask) ||| (va &&& ((1 <<< 30) - 1))` gives `0x40000000` for
this descriptor and target address 0. -/
theorem c1_counterexample :
    (walkTable memC1 0x1000 0 0 (some 0) 512).1 =
      [Ev.node 0 0 0 0x2003 { kind := .table, addr := 0x2000 },
       Ev.node 1 0 0 0x40001601 { kind := .block, addr := 0x40001000, af := 1, sh := 2 }] ∧
    (0x40001601 : Nat) &&& 0x0000FFFFC0000000 ||| (0 &&& ((1 <<< 30) - 1)) =
      0x40000000 ∧
    (0x40001000 : Nat) ≠ 0x40000000 := by
  refine ⟨?_, by decide, by decide⟩
  rw [walkTable_unfold, if_neg (by omega), range_512_eq]
  rw [walkLoop_emit memC1 0x1000 0 0 (some 0) 512 _ 0 (List.range' 1 511) 0 0x2003
    (by decide) (by decide) (by intro t ht; cases ht; decide)]
  rw [if_neg (by simp)]
  rw [walkLoop_target0_tail memC1 0x1000 0 0 512 _ 1 511 (by norm_num)]
  rw [if_pos (by decide : (0 : Nat) < 3 ∧ ((0x2003 : Nat) >>> 1) &&& 1 = 1)]
  rw [show (0x2003 : Nat) &&& 0x0000FFFFFFFFF000 = 0x2000 from by decide]
  norm_num
  rw [walkTable_unfold, if_neg (by omega), range_512_eq]
  rw [walkLoop_emit memC1 0x2000 0 1 (some 0) 512 _ 0 (List.range' 1 511) 0 0x40001601
    (by decide) (by decide) (by intro t ht; cases ht; decide)]
  rw [if_neg (by simp)]
  rw [walkLoop_target0_tail memC1 0x2000 0 1 512 _ 1 511 (by norm_num)]
  rw [if_neg (by decide)]
  decide

end PageWalk

namespace PageWalk

/-- C1 (amended): only the single-target script applies the claim's formula:
its block branch at a level other than 3 with the type bit clear and
`0 < level` terminates with final physical address
`(raw &&& blockMask) ||| (va &&& ((1 <<< shift) - 1))` using the row's
level-specific mask; the enumeration script's decoder instead reports, for a
block below level 3, the raw descriptor masked with the 4 KiB page mask
bits 47:12 and adds no virtual-address offset. -/
theorem c1_amended :
    (∀ (mem : Nat → Option Nat) (va idx shift bm : Nat)
        (rest : List (Nat × Nat × Option Nat)) (level cur : Nat)
        (path : List (Nat × Nat × Nat)) (e : Nat),
        mem (cur + idx * 8) = some e → e &&& 1 = 1 → (e >>> 1) &&& 1 = 0 →
        level ≠ 3 → 0 < level →
        doWalkLoop mem va ((idx, shift, some bm) :: rest) level cur path =
          .Mapped ((e &&& bm) ||| (va &&& ((1 <<< shift) - 1)))
            (path ++ [(level, idx, e)])) ∧
    (∀ (e level : Nat), e &&& 1 = 1 → (e >>> 1) &&& 1 = 0 → level < 3 →
        (decode_pte (some e) level).addr = e &&& 0x0000FFFFFFFFF000) := by
  constructor
  · intro mem va idx shift bm rest level cur path e hm hv ht hl3 hl0
    simp only [doWalkLoop, hm]
    rw [if_neg (by omega), if_neg hl3, if_pos ⟨ht, hl0⟩]
  · intro e level hv ht hl
    simp only [decode_pte]
    rw [if_neg (by omega)]
    rw [if_neg (by simp [ht]), if_pos hl]

/-- C1 witness: the single-target block branch evaluated at the raw
descriptor `0x40000601` and virtual address `0x123456789` at level 1, and
the enumeration decoder's address for the block descriptor `0x40001601`. -/
theorem c1_witness :
    doWalkLoop (fun _ => some 0x40000601) 0x123456789
        [(1, 30, some 0x0000FFFFC0000000)] 1 0 [] =
      .Mapped ((0x40000601 &&& 0x0000FFFFC0000000) |||
          (0x123456789 &&& ((1 <<< 30) - 1))) [(1, 1, 0x40000601)] ∧
    (decode_pte (some 0x40001601) 1).addr = 0x40001601 &&& 0x0000FFFFFFFFF000 :=
  ⟨c1_amended.1 (fun _ => some 0x40000601) 0x123456789 1 30 0x0000FFFFC0000000
      [] 1 0 [] 0x40000601 rfl (by decide) (by decide) (by decide) (by decide),
   c1_amended.2 0x40001601 1 (by decide) (by decide) (by decide)⟩

/-- C5 (amended): in the single-target script a valid level-0 entry is
followed as a table unconditionally — the walk continues to level 1 with the
entry's bits 47:12 as the next table, whatever the type bit — but in the
enumeration script a valid level-0 entry with type bit 0 is classified as a
Block leaf, not a Table. -/
theorem c5_amended :
    (∀ (mem : Nat → Option Nat) (va idx shift : Nat) (bm : Option Nat)
        (rest : List (Nat × Nat × Option Nat)) (cur : Nat)
        (path : List (Nat × Nat × Nat)) (e : Nat),
        mem (cur + idx * 8) = some e → e &&& 1 = 1 →
        doWalkLoop mem va ((idx, shift, bm) :: rest) 0 cur path =
          doWalkLoop mem va rest 1 (e &&& 0x0000FFFFFFFFF000)
            (path ++ [(0, idx, e)])) ∧
    (∀ e : Nat, e &&& 1 = 1 → (e >>> 1) &&& 1 = 0 →
        (decode_pte (some e) 0).kind = PteKind.block) := by
  constructor
  · intro mem va idx shift bm rest cur path e hm hv
    simp only [doWalkLoop, hm]
    rw [if_neg (by omega), if_neg (by omega), if_neg (by omega)]
  · intro e hv ht
    simp only [decode_pte]
    rw [if_neg (by omega)]
    rw [if_neg (by simp [ht]), if_pos (by omega)]

/-- C5 witness: the single-target walk at level 0 descends on the raw value 5
(valid, type bit 0), and the enumeration decoder classifies the same value as
a block. -/
theorem c5_witness :
    doWalkLoop (fun _ => some 5) 0 [(0, 39, none)] 0 0 [] =
      doWalkLoop (fun _ => some 5) 0 [] 1 (5 &&& 0x0000FFFFFFFFF000) [(0, 0, 5)] ∧
    (decode_pte (some 5) 0).kind = PteKind.block :=
  ⟨c5_amended.1 (fun _ => some 5) 0 0 39 none [] 0 [] 5 rfl (by decide),
   c5_amended.2 5 (by decide) (by decide)⟩

/-- C3 (amended): the single-target script uses only bits 47:12 of the chosen
TTBR — for a kernel address the walk result is unchanged when TTBR1 is
replaced by any value agreeing on bits 47:12 — while the enumeration script's
root selection masks the chosen TTBR only with `0x0000FFFFFFFFFFFF`: the base
it walks from is the whole TTBR modulo `2 ^ 48`, so the low 12 bits are kept,
not discarded. -/
theorem c3_amended :
    (∀ (mem : Nat → Option Nat) (va t0 t1 t1' : Nat),
        (va >>> 55) &&& 1 = 1 →
        t1 &&& 0x0000FFFFFFFFF000 = t1' &&& 0x0000FFFFFFFFF000 →
        do_walk mem t0 t1 va = do_walk mem t0 t1' va) ∧
    (∀ t0 t1 va : Nat, 0xFFFF000000000000 ≤ va →
        (invoke_select t0 t1 va).1 = t1 % 2 ^ 48) := by
  constructor
  · intro mem va t0 t1 t1' hk hmask
    simp only [do_walk]
    simp only [if_pos hk]
    rw [hmask]
  · intro t0 t1 va hva
    simp only [invoke_select]
    rw [if_pos hva]
    have h : (0x0000FFFFFFFFFFFF : Nat) = 2 ^ 48 - 1 := by norm_num
    rw [h, Nat.and_pow_two_sub_one_eq_mod]

/-- C3 witness: the single-target walk with two TTBR1 values agreeing on
bits 47:12, and the enumeration root base for a TTBR1 with low bits set. -/
theorem c3_witness :
    do_walk (fun _ => none) 7 0x5000 (1 <<< 55) =
      do_walk (fun _ => none) 7 0x1000000005000 (1 <<< 55) ∧
    (invoke_select 0 0xFFF 0xFFFF000000000000).1 = 0xFFF % 2 ^ 48 :=
  ⟨c3_amended.1 (fun _ => none) (1 <<< 55) 7 0x5000 0x1000000005000
      (by decide) (by decide),
   c3_amended.2 0 0xFFF 0xFFFF000000000000 (by norm_num)⟩

/-- C3 counterexample: in the enumeration script a TTBR1 value with its low
12 bits set is used as the walk root unmasked below bit 12 — the root equals
the raw value, not its bits 47:12 — refuting that the low 12 bits are
discarded in every mode. -/
theorem c3_counterexample :
    (invoke_select 0 0x40000123 0xFFFF000000000000).1 = 0x40000123 ∧
    (invoke_select 0 0x40000123 0xFFFF000000000000).1 ≠
      0x40000123 &&& 0x0000FFFFFFFFF000 := by
  constructor
  · simp only [invoke_select]
    rw [if_pos (by norm_num)]
    decide
  · simp only [invoke_select]
    rw [if_pos (by norm_num)]
    decide

/-- C4 (amended): the single-target script routes purely by bit 55, so for an
address with bit 55 set the result never depends on TTBR0 — including
non-canonical addresses; the enumeration script instead routes by the
comparison `va ≥ 0xFFFF000000000000`, so every address below that bound —
even one with bit 55 set — selects the TTBR0 root. -/
theorem c4_amended :
    (∀ (mem : Nat → Option Nat) (va t0 t0' t1 : Nat),
        (va >>> 55) &&& 1 = 1 →
        do_walk mem t0 t1 va = do_walk mem t0' t1 va) ∧
    (∀ t0 t1 va : Nat, va < 0xFFFF000000000000 →
        invoke_select t0 t1 va = (t0 &&& 0x0000FFFFFFFFFFFF, 0)) := by
  constructor
  · intro mem va t0 t0' t1 hk
    simp only [do_walk]
    simp only [if_pos hk]
  · intro t0 t1 va hva
    simp only [invoke_select]
    rw [if_neg (by omega)]

/-- C4 witness: a non-canonical address with bit 55 set walks independently
of TTBR0 in the single-target script, and a small user address selects the
TTBR0 root in the enumeration script. -/
theorem c4_witness :
    do_walk (fun _ => none) 0 2 (1 <<< 55) = do_walk (fun _ => none) 1 2 (1 <<< 55) ∧
    invoke_select 7 8 0 = (7 &&& 0x0000FFFFFFFFFFFF, 0) :=
  ⟨c4_amended.1 (fun _ => none) (1 <<< 55) 0 1 2 (by decide),
   c4_amended.2 7 8 0 (by norm_num)⟩

/-- C4 counterexample: the address `0x0080000000000000` has bit 55 set but is
below `0xFFFF000000000000`, and the enumeration script's root selection
returns the TTBR0-derived base for it — the claim that every bit-55 address
routes to TTBR1 fails for this mode. -/
theorem c4_counterexample :
    ((0x0080000000000000 : Nat) >>> 55) &&& 1 = 1 ∧
    invoke_select 0x111000 0x222000 0x0080000000000000 = (0x111000, 0) := by
  constructor
  · decide
  · simp only [invoke_select]
    rw [if_neg (by norm_num)]
    decide

end PageWalk
